import Mathlib

/-!
Verification of the MP4 memory-management code: ContFramePool
(cont_frame_pool.C), the frame-pool registry, VMPool (vm_pool.C) and
PageTable (page_table.C), shallowly embedded in Lean.

Machine integers (unsigned long, unsigned char) are modelled as Nat; all
bit manipulations of the source are kept verbatim.  The state bitmap of a
ContFramePool is modelled as the array of bytes it is in the source: a
function from byte index to byte value.
-/

/-- The three frame states of ContFramePool (enum class FrameState in the
header): Free, Used (ALLOCATED), HoS (HEAD-OF-SEQUENCE). -/
inductive FrameState where
  | Free : FrameState
  | Used : FrameState
  | HoS : FrameState
deriving DecidableEq, Repr

/-- The two-bit encoding of a frame state written by set_state:
Free = 00, Used = 01, HoS = 10. -/
def FrameState.bits : FrameState → Nat
  | .Free => 0
  | .Used => 1
  | .HoS => 2

/-- Byte index of the two state bits of a frame: (_frame_no * 2) / 8. -/
def bitmapIndex (f : Nat) : Nat := f * 2 / 8

/-- Bit position of the two state bits inside that byte: (_frame_no * 2) % 8. -/
def bitOffset (f : Nat) : Nat := f * 2 % 8

/-- Decoding of two bits into a frame state, as the static_cast in
ContFramePool::get_state reads them; the bit pattern 11 matches no
enumerator and decodes to none. -/
def decodeState : Nat → Option FrameState
  | 0 => some FrameState.Free
  | 1 => some FrameState.Used
  | 2 => some FrameState.HoS
  | _ => none

/-- ContFramePool::set_state (cont_frame_pool.C, lines 181-230).  The code
computes mask = 0x3 << bit_offset, clears the two bits with
bitmap[i] &= ~mask (on an unsigned char, AND with 255 XOR mask) and then
ORs in the encoding of the new state (0 for Free, 1 << off for Used,
2 << off for HoS), which is FrameState.bits shifted by the offset. -/
def set_state (bm : Nat → Nat) (f : Nat) (s : FrameState) : Nat → Nat :=
  fun i =>
    if i = bitmapIndex f then
      (bm i &&& (255 ^^^ (3 <<< bitOffset f))) ||| (s.bits <<< bitOffset f)
    else bm i

/-- ContFramePool::get_state (cont_frame_pool.C, lines 233-247):
bits = (bitmap[byte_index] >> bit_offset) & 0b11, cast to FrameState. -/
def get_state (bm : Nat → Nat) (f : Nat) : Option FrameState :=
  decodeState ((bm (bitmapIndex f) >>> bitOffset f) &&& 3)

theorem decodeState_bits (s : FrameState) : decodeState s.bits = some s := by
  cases s <;> rfl

theorem bits_testBit_ge_two (s : FrameState) (m : Nat) (hm : 2 ≤ m) :
    s.bits.testBit m = false := by
  have h4 : (2 : Nat) ^ 2 ≤ 2 ^ m := Nat.pow_le_pow_right (by norm_num) hm
  cases s <;>
    exact Nat.testBit_lt_two_pow (by simp only [FrameState.bits]; omega)

theorem and3_testBit_ge_two (x m : Nat) (hm : 2 ≤ m) :
    (x &&& 3).testBit m = false := by
  have h4 : (2 : Nat) ^ 2 ≤ 2 ^ m := Nat.pow_le_pow_right (by norm_num) hm
  exact Nat.testBit_lt_two_pow (by
    have := Nat.and_le_right (n := x) (m := 3)
    omega)

theorem testBit_255 (n : Nat) : (255 : Nat).testBit n = decide (n < 8) := by
  rw [show (255 : Nat) = 2 ^ 8 - 1 by norm_num, Nat.testBit_two_pow_sub_one]

theorem testBit_3 (n : Nat) : (3 : Nat).testBit n = decide (n < 2) := by
  rw [show (3 : Nat) = 2 ^ 2 - 1 by norm_num, Nat.testBit_two_pow_sub_one]

theorem byte_upd_read_same (x : Nat) (o : Nat) (ho : o ≤ 6) (s : FrameState) :
    (((x &&& (255 ^^^ (3 <<< o))) ||| (s.bits <<< o)) >>> o) &&& 3 = s.bits := by
  apply Nat.eq_of_testBit_eq
  intro i
  match i with
  | 0 =>
    have hlt : o < 8 := by omega
    cases s <;>
      simp [Nat.testBit_land, Nat.testBit_lor, Nat.testBit_xor,
        Nat.testBit_shiftRight, Nat.testBit_shiftLeft, testBit_255, testBit_3,
        hlt, FrameState.bits]
  | 1 =>
    have hlt : o + 1 < 8 := by omega
    have hle : o ≤ o + 1 := Nat.le_add_right o 1
    cases s <;>
      simp [Nat.testBit_land, Nat.testBit_lor, Nat.testBit_xor,
        Nat.testBit_shiftRight, Nat.testBit_shiftLeft, testBit_255, testBit_3,
        hlt, hle, FrameState.bits]
  | (i + 2) =>
    rw [and3_testBit_ge_two _ _ (by omega), bits_testBit_ge_two _ _ (by omega)]

theorem byte_upd_read_other (x : Nat) (o o' : Nat) (ho : o ≤ 6) (ho' : o' ≤ 6)
    (he : o % 2 = 0) (he' : o' % 2 = 0) (hne : o ≠ o') (s : FrameState) :
    (((x &&& (255 ^^^ (3 <<< o))) ||| (s.bits <<< o)) >>> o') &&& 3 =
      (x >>> o') &&& 3 := by
  have hcase : o' + 1 < o ∨ o + 1 < o' := by omega
  apply Nat.eq_of_testBit_eq
  intro i
  match i with
  | 0 =>
    have hlt : o' < 8 := by omega
    rcases hcase with hc | hc
    · have hno : ¬ o ≤ o' := by omega
      simp [Nat.testBit_land, Nat.testBit_lor, Nat.testBit_xor,
        Nat.testBit_shiftRight, Nat.testBit_shiftLeft, testBit_255, testBit_3,
        hlt, hno]
    · have hyes : o ≤ o' := by omega
      have hge : ¬ (o' - o < 2) := by omega
      simp [Nat.testBit_land, Nat.testBit_lor, Nat.testBit_xor,
        Nat.testBit_shiftRight, Nat.testBit_shiftLeft, testBit_255, testBit_3,
        hlt, hyes, hge, bits_testBit_ge_two s (o' - o) (by omega)]
  | 1 =>
    have hlt : o' + 1 < 8 := by omega
    rcases hcase with hc | hc
    · have hno : ¬ o ≤ o' + 1 := by omega
      simp [Nat.testBit_land, Nat.testBit_lor, Nat.testBit_xor,
        Nat.testBit_shiftRight, Nat.testBit_shiftLeft, testBit_255, testBit_3,
        hlt, hno]
    · have hyes : o ≤ o' + 1 := by omega
      have hge : ¬ (o' + 1 - o < 2) := by omega
      simp [Nat.testBit_land, Nat.testBit_lor, Nat.testBit_xor,
        Nat.testBit_shiftRight, Nat.testBit_shiftLeft, testBit_255, testBit_3,
        hlt, hyes, hge, bits_testBit_ge_two s (o' + 1 - o) (by omega)]
  | (i + 2) =>
    rw [and3_testBit_ge_two _ _ (by omega), and3_testBit_ge_two _ _ (by omega)]

theorem bitOffset_le_six (f : Nat) : bitOffset f ≤ 6 := by
  unfold bitOffset; omega

theorem bitOffset_even (f : Nat) : bitOffset f % 2 = 0 := by
  unfold bitOffset; omega

/-- Full characterisation of a state write: reading frame g after writing
frame f gives the written state at f and the old state elsewhere. -/
theorem get_state_set_state (bm : Nat → Nat) (f g : Nat) (s : FrameState) :
    get_state (set_state bm f s) g = if g = f then some s else get_state bm g := by
  by_cases hgf : g = f
  · subst hgf
    have hb : set_state bm g s (bitmapIndex g) =
        (bm (bitmapIndex g) &&& (255 ^^^ (3 <<< bitOffset g))) |||
          (s.bits <<< bitOffset g) := by
      simp [set_state]
    simp only [get_state, hb,
      byte_upd_read_same (bm (bitmapIndex g)) _ (bitOffset_le_six g) s,
      decodeState_bits, if_pos]
  · rw [if_neg hgf]
    by_cases hidx : bitmapIndex g = bitmapIndex f
    · have hoff : bitOffset g ≠ bitOffset f := by
        intro hco
        apply hgf
        unfold bitmapIndex at hidx
        unfold bitOffset at hco
        omega
      have hb : set_state bm f s (bitmapIndex g) =
          (bm (bitmapIndex f) &&& (255 ^^^ (3 <<< bitOffset f))) |||
            (s.bits <<< bitOffset f) := by
        simp [set_state, hidx]
      simp only [get_state]
      rw [hb, hidx]
      rw [byte_upd_read_other _ _ _ (bitOffset_le_six f) (bitOffset_le_six g)
        (bitOffset_even f) (bitOffset_even g) (fun hco => hoff hco.symm) s]
    · have hb : set_state bm f s (bitmapIndex g) = bm (bitmapIndex g) := by
        simp [set_state, hidx]
      simp only [get_state, hb]

/-- Claim C10: writing the state of frame f with set_state and reading it
back with get_state yields exactly that state, the state of every other
frame index g is unchanged, and the two bits written for f are never the
invalid pattern 11. -/
theorem C10_set_state_get_state (bm : Nat → Nat) (f : Nat) (s : FrameState) :
    get_state (set_state bm f s) f = some s ∧
    (∀ g, g ≠ f → get_state (set_state bm f s) g = get_state bm g) ∧
    ((set_state bm f s) (bitmapIndex f) >>> bitOffset f) &&& 3 ≠ 3 := by
  refine ⟨?_, ?_, ?_⟩
  · rw [get_state_set_state, if_pos rfl]
  · intro g hg
    rw [get_state_set_state, if_neg hg]
  · have h := get_state_set_state bm f f s
    rw [if_pos rfl] at h
    unfold get_state at h
    intro hbad
    rw [hbad] at h
    exact Option.noConfusion h

/-- Concrete instance of claim C10, discharging its hypotheses at frame 5,
other frame 4, on the all-zero bitmap. -/
theorem C10_set_state_get_state_witness :
    get_state (set_state (fun _ => 0) 5 FrameState.HoS) 5 = some FrameState.HoS ∧
    get_state (set_state (fun _ => 0) 5 FrameState.HoS) 4 = get_state (fun _ => 0) 4 ∧
    ((set_state (fun _ => 0) 5 FrameState.HoS) (bitmapIndex 5) >>> bitOffset 5) &&& 3 ≠ 3 :=
  ⟨(C10_set_state_get_state (fun _ => 0) 5 FrameState.HoS).1,
   (C10_set_state_get_state (fun _ => 0) 5 FrameState.HoS).2.1 4 (by decide),
   (C10_set_state_get_state (fun _ => 0) 5 FrameState.HoS).2.2⟩

/-- A contiguous frame pool: base frame number, number of frames, and the
state bitmap (modelled as the byte array it is in the source). -/
structure ContFramePool where
  base_frame_no : Nat
  nframes : Nat
  bitmap : Nat → Nat

/-- The inner loop of ContFramePool::get_frames (lines 322-337): starting
frame i is usable for a request of k frames when frames i..i+k-1 are all
Free. -/
def windowFree (bm : Nat → Nat) (i k : Nat) : Bool :=
  (List.range k).all fun j => decide (get_state bm (i + j) = some FrameState.Free)

/-- First index at or after s, among c candidates, satisfying pred: the
search order of the for loops in get_frames, allocate and release. -/
def firstSat (pred : Nat → Bool) : Nat → Nat → Option Nat
  | _, 0 => none
  | s, c + 1 => if pred s then some s else firstSat pred (s + 1) c

/-- The marking step of get_frames (lines 349-374): frame i becomes HoS and
frames i+1 .. i+k-1 become Used. -/
def allocRange (bm : Nat → Nat) (i k : Nat) : Nat → Nat :=
  (List.range' (i + 1) (k - 1)).foldl (fun b j => set_state b j FrameState.Used)
    (set_state bm i FrameState.HoS)

/-- ContFramePool::get_frames (lines 301-446).  Returns 0 on an invalid
request (k = 0 or k > nframes), otherwise scans i = 0 .. nframes - k for the
first window of k Free frames, marks it and returns base_frame_no + i;
returns 0 if no window exists.  The returned pool carries the updated
bitmap. -/
def ContFramePool.get_frames (p : ContFramePool) (k : Nat) : Nat × ContFramePool :=
  if k = 0 ∨ p.nframes < k then (0, p)
  else
    match firstSat (fun i => windowFree p.bitmap i k) 0 (p.nframes - k + 1) with
    | some i => (p.base_frame_no + i, { p with bitmap := allocRange p.bitmap i k })
    | none => (0, p)

/-- ContFramePool::mark_inaccessible (lines 448-474).  After the bounds
check it sets state HoS at index _base_frame_no and then runs
for (i = start_index; i < start_index + _n_frames; i++) with
start_index = _base_frame_no + 1, setting Used at the _n_frames indices
b+1 .. b+k (note: the loop body runs k times, and the indices are used
directly as bitmap indices). -/
def ContFramePool.mark_inaccessible (p : ContFramePool) (b k : Nat) : ContFramePool :=
  if b < p.base_frame_no ∨ p.base_frame_no + p.nframes < b + k then p
  else
    let bm1 := set_state p.bitmap b FrameState.HoS
    let bm2 :=
      (List.range' (b + 1) k).foldl (fun bm i => set_state bm i FrameState.Used) bm1
    { p with bitmap := bm2 }

/-- Index at which the release walk of ContFramePool::release_frames
(lines 536-546) stops when started at idx on bitmap bm with pool size n:
the first index that is out of the pool or holds Free or HoS. -/
def stopAt (n : Nat) (bm : Nat → Nat) (idx : Nat) : Nat :=
  if h : idx < n ∧ get_state bm idx ≠ some FrameState.HoS ∧
      get_state bm idx ≠ some FrameState.Free then
    stopAt n bm (idx + 1)
  else idx
termination_by n - idx
decreasing_by obtain ⟨h1, -, -⟩ := h; omega

/-- The release walk of ContFramePool::release_frames (lines 536-546):
starting at idx, set frames Free until a frame out of the pool or already
Free or HoS is met. -/
def freeRun (n : Nat) (bm : Nat → Nat) (idx : Nat) : Nat → Nat :=
  if h : idx < n ∧ get_state bm idx ≠ some FrameState.HoS ∧
      get_state bm idx ≠ some FrameState.Free then
    freeRun n (set_state bm idx FrameState.Free) (idx + 1)
  else bm
termination_by n - idx
decreasing_by obtain ⟨h1, -, -⟩ := h; omega

/-- The containment test of release_frames (lines 494-495): does frame f
fall in the range of pool p. -/
def inRange (p : ContFramePool) (f : Nat) : Bool :=
  decide (p.base_frame_no ≤ f ∧ f < p.base_frame_no + p.nframes)

/-- ContFramePool::release_frames (lines 476-561).  The static function
walks the registry list (modelled as the list of live pools in traversal
order), takes the first pool whose range contains f, requires state HoS at
index f - base_frame_no, frees that index and runs the release walk from
the next index; on a non-HoS head or when no pool contains f it only logs
and changes nothing. -/
def ContFramePool.release_frames (pools : List ContFramePool) (f : Nat) :
    List ContFramePool :=
  match pools with
  | [] => []
  | p :: rest =>
    if inRange p f then
      if get_state p.bitmap (f - p.base_frame_no) = some FrameState.HoS then
        let bm1 := set_state p.bitmap (f - p.base_frame_no) FrameState.Free
        let bm2 := freeRun p.nframes bm1 (f - p.base_frame_no + 1)
        { p with bitmap := bm2 } :: rest
      else p :: rest
    else p :: ContFramePool.release_frames rest f

theorem firstSat_spec (pred : Nat → Bool) (c : Nat) :
    ∀ s j, firstSat pred s c = some j →
      pred j = true ∧ s ≤ j ∧ j < s + c ∧ ∀ m, s ≤ m → m < j → pred m = false := by
  induction c with
  | zero => intro s j h; exact absurd h (by simp [firstSat])
  | succ c ih =>
    intro s j h
    rw [firstSat] at h
    by_cases hp : pred s
    · rw [if_pos hp] at h
      obtain rfl : s = j := by exact Option.some.inj h
      exact ⟨hp, Nat.le_refl s, by omega, fun m h1 h2 => absurd h1 (by omega)⟩
    · rw [if_neg hp] at h
      obtain ⟨h1, h2, h3, h4⟩ := ih (s + 1) j h
      refine ⟨h1, by omega, by omega, fun m hm1 hm2 => ?_⟩
      by_cases hms : m = s
      · subst hms; exact Bool.of_not_eq_true hp
      · exact h4 m (by omega) hm2

theorem firstSat_eq_some (pred : Nat → Bool) (c : Nat) :
    ∀ s j, pred j = true → (∀ m, s ≤ m → m < j → pred m = false) →
      s ≤ j → j < s + c → firstSat pred s c = some j := by
  induction c with
  | zero => intro s j _ _ _ h; omega
  | succ c ih =>
    intro s j hj hbelow h1 h2
    rw [firstSat]
    by_cases hs : s = j
    · subst hs; rw [if_pos hj]
    · rw [if_neg]
      · exact ih (s + 1) j hj (fun m hm1 hm2 => hbelow m (by omega) hm2)
          (by omega) (by omega)
      · rw [hbelow s (Nat.le_refl s) (by omega)]; simp

theorem foldl_set_get (s : FrameState) (l : List Nat) :
    ∀ (bm : Nat → Nat) (g : Nat),
      get_state (l.foldl (fun b j => set_state b j s) bm) g =
        if g ∈ l then some s else get_state bm g := by
  induction l with
  | nil => intro bm g; simp
  | cons a t ih =>
    intro bm g
    rw [List.foldl_cons, ih, get_state_set_state]
    by_cases hgt : g ∈ t
    · simp [hgt]
    · by_cases hga : g = a
      · simp [hgt, hga]
      · simp [hgt, hga]

theorem allocRange_get (bm : Nat → Nat) (i k g : Nat) :
    get_state (allocRange bm i k) g =
      if g = i then some FrameState.HoS
      else if i + 1 ≤ g ∧ g < i + k then some FrameState.Used
      else get_state bm g := by
  rw [allocRange, foldl_set_get, get_state_set_state]
  by_cases hg : g ∈ List.range' (i + 1) (k - 1)
  · rw [List.mem_range'_1] at hg
    rw [if_pos (by rw [List.mem_range'_1]; omega)]
    rw [if_neg (by omega), if_pos (by omega)]
  · rw [List.mem_range'_1] at hg
    rw [if_neg (by rw [List.mem_range'_1]; omega)]
    by_cases hgi : g = i
    · simp [hgi]
    · rw [if_neg hgi, if_neg hgi, if_neg (by omega)]

theorem windowFree_iff (bm : Nat → Nat) (i k : Nat) :
    windowFree bm i k = true ↔
      ∀ j, j < k → get_state bm (i + j) = some FrameState.Free := by
  simp [windowFree, List.all_eq_true, List.mem_range]

/-- Claim C1: when get_frames(k) with 1 <= k <= nframes returns f that is
not 0, then i = f - base_frame_no is the lowest index whose window
[i, i+k) was entirely Free beforehand; afterwards index i is HoS, indices
i+1 .. i+k-1 are Used, every index outside the window is unchanged, and
the window lies inside [0, nframes), i.e. the frames lie inside
[base, base + nframes). -/
theorem C1_get_frames_first_fit (p : ContFramePool) (k f : Nat)
    (p' : ContFramePool) (hk1 : 1 ≤ k) (hk2 : k ≤ p.nframes)
    (h : ContFramePool.get_frames p k = (f, p')) (hf : f ≠ 0) :
    f = p.base_frame_no + (f - p.base_frame_no) ∧
    (f - p.base_frame_no) + k ≤ p.nframes ∧
    (∀ j, j < k →
      get_state p.bitmap ((f - p.base_frame_no) + j) = some FrameState.Free) ∧
    (∀ m, m < f - p.base_frame_no →
      ∃ j, j < k ∧ get_state p.bitmap (m + j) ≠ some FrameState.Free) ∧
    p'.base_frame_no = p.base_frame_no ∧ p'.nframes = p.nframes ∧
    get_state p'.bitmap (f - p.base_frame_no) = some FrameState.HoS ∧
    (∀ j, 1 ≤ j → j < k →
      get_state p'.bitmap ((f - p.base_frame_no) + j) = some FrameState.Used) ∧
    (∀ g, g < f - p.base_frame_no ∨ f - p.base_frame_no + k ≤ g →
      get_state p'.bitmap g = get_state p.bitmap g) := by
  rw [ContFramePool.get_frames, if_neg (by omega)] at h
  cases hfs : firstSat (fun i => windowFree p.bitmap i k) 0 (p.nframes - k + 1) with
  | none => rw [hfs] at h; cases h; exact absurd rfl hf
  | some i =>
    rw [hfs] at h
    obtain ⟨h1, h2⟩ := Prod.mk.injEq .. ▸ h
    obtain ⟨hw, -, hlt, hmin⟩ := firstSat_spec _ _ _ _ hfs
    have hib : f - p.base_frame_no = i := by omega
    rw [hib]
    have hwin := (windowFree_iff p.bitmap i k).mp hw
    refine ⟨by omega, by omega, hwin, ?_, ?_, ?_, ?_, ?_, ?_⟩
    · intro m hm
      have := hmin m (by omega) (by omega)
      have hnall : ¬ (windowFree p.bitmap m k = true) := by
        rw [this]; simp
      rw [windowFree_iff] at hnall
      push_neg at hnall
      obtain ⟨j, hj1, hj2⟩ := hnall
      exact ⟨j, hj1, hj2⟩
    · rw [← h2]
    · rw [← h2]
    · rw [← h2]
      simp only
      rw [allocRange_get, if_pos rfl]
    · intro j hj1 hj2
      rw [← h2]
      simp only
      rw [allocRange_get, if_neg (by omega), if_pos (by omega)]
    · intro g hg
      rw [← h2]
      simp only
      rw [allocRange_get, if_neg (by omega), if_neg (by omega)]

/-- Concrete instance of claim C1: a pool with base 1, four frames, all
Free, answering a request of two frames with frame number 1. -/
theorem C1_get_frames_first_fit_witness :
    (1 : Nat) = 1 + (1 - 1) ∧
    (1 - 1) + 2 ≤ (4 : Nat) ∧
    (∀ j, j < 2 →
      get_state (fun _ => 0) ((1 - 1) + j) = some FrameState.Free) ∧
    (∀ m, m < 1 - 1 →
      ∃ j, j < 2 ∧ get_state (fun _ => 0) (m + j) ≠ some FrameState.Free) ∧
    (ContFramePool.get_frames ⟨1, 4, fun _ => 0⟩ 2).2.base_frame_no = 1 ∧
    (ContFramePool.get_frames ⟨1, 4, fun _ => 0⟩ 2).2.nframes = 4 ∧
    get_state (ContFramePool.get_frames ⟨1, 4, fun _ => 0⟩ 2).2.bitmap (1 - 1) =
      some FrameState.HoS ∧
    (∀ j, 1 ≤ j → j < 2 →
      get_state (ContFramePool.get_frames ⟨1, 4, fun _ => 0⟩ 2).2.bitmap
        ((1 - 1) + j) = some FrameState.Used) ∧
    (∀ g, g < 1 - 1 ∨ 1 - 1 + 2 ≤ g →
      get_state (ContFramePool.get_frames ⟨1, 4, fun _ => 0⟩ 2).2.bitmap g =
        get_state (fun _ => 0) g) :=
  C1_get_frames_first_fit ⟨1, 4, fun _ => 0⟩ 2 1
    (ContFramePool.get_frames ⟨1, 4, fun _ => 0⟩ 2).2
    (by decide) (by decide) rfl (by decide)

/-- Claim C5 shows a bug: on the pool with base 0, eight frames, all Free,
mark_inaccessible(0, 2) is claimed to set frame 0 to HoS and frame 1 to
Used and to leave frame 2 (outside the range [0, 2)) unchanged, i.e. Free;
the code also sets frame 2 to Used, because the marking loop runs
_n_frames times after the head instead of _n_frames - 1 times. -/
theorem C5_mark_inaccessible_off_by_one :
    get_state (ContFramePool.mark_inaccessible ⟨0, 8, fun _ => 0⟩ 0 2).bitmap 2 =
      some FrameState.Used ∧
    get_state (fun _ => 0) 2 = some FrameState.Free ∧
    get_state (ContFramePool.mark_inaccessible ⟨0, 8, fun _ => 0⟩ 0 2).bitmap 0 =
      some FrameState.HoS ∧
    get_state (ContFramePool.mark_inaccessible ⟨0, 8, fun _ => 0⟩ 0 2).bitmap 1 =
      some FrameState.Used := by
  decide

theorem stopAt_ge (n : Nat) (bm : Nat → Nat) (idx : Nat) :
    idx ≤ stopAt n bm idx := by
  rw [stopAt]
  split
  · exact Nat.le_trans (Nat.le_succ idx) (stopAt_ge n bm (idx + 1))
  · exact Nat.le_refl idx
termination_by n - idx
decreasing_by obtain ⟨h1, -, -⟩ := ‹_ ∧ _ ∧ _›; omega

theorem stopAt_le (n : Nat) (bm : Nat → Nat) (idx : Nat) (h : idx ≤ n) :
    stopAt n bm idx ≤ n := by
  rw [stopAt]
  split
  · next hc => exact stopAt_le n bm (idx + 1) (by omega)
  · exact h
termination_by n - idx
decreasing_by obtain ⟨h1, -, -⟩ := ‹_ ∧ _ ∧ _›; omega

theorem stopAt_scan (n : Nat) (bm : Nat → Nat) (idx : Nat) :
    ∀ m, idx ≤ m → m < stopAt n bm idx →
      m < n ∧ get_state bm m ≠ some FrameState.HoS ∧
        get_state bm m ≠ some FrameState.Free := by
  intro m h1 h2
  rw [stopAt] at h2
  split at h2
  · next hc =>
    by_cases hm : m = idx
    · exact hm ▸ hc
    · exact stopAt_scan n bm (idx + 1) m (by omega) h2
  · omega
termination_by n - idx
decreasing_by obtain ⟨h1, -, -⟩ := ‹_ ∧ _ ∧ _›; omega

theorem stopAt_end (n : Nat) (bm : Nat → Nat) (idx : Nat) (h : idx ≤ n) :
    stopAt n bm idx = n ∨
      get_state bm (stopAt n bm idx) = some FrameState.HoS ∨
      get_state bm (stopAt n bm idx) = some FrameState.Free := by
  rw [stopAt]
  split
  · next hc => exact stopAt_end n bm (idx + 1) (by omega)
  · next hc =>
    push_neg at hc
    by_cases hn : idx < n
    · rcases Decidable.em (get_state bm idx = some FrameState.HoS) with hh | hh
      · exact Or.inr (Or.inl hh)
      · exact Or.inr (Or.inr (hc hn hh))
    · exact Or.inl (by omega)
termination_by n - idx
decreasing_by obtain ⟨h1, -, -⟩ := ‹_ ∧ _ ∧ _›; omega

theorem stopAt_congr (n : Nat) (bm1 bm2 : Nat → Nat) (idx : Nat)
    (H : ∀ m, idx ≤ m → get_state bm1 m = get_state bm2 m) :
    stopAt n bm1 idx = stopAt n bm2 idx := by
  have hs := H idx (Nat.le_refl idx)
  by_cases hc : idx < n ∧ get_state bm1 idx ≠ some FrameState.HoS ∧
      get_state bm1 idx ≠ some FrameState.Free
  · have hc2 : idx < n ∧ get_state bm2 idx ≠ some FrameState.HoS ∧
        get_state bm2 idx ≠ some FrameState.Free := by rw [← hs]; exact hc
    rw [stopAt]
    conv_rhs => rw [stopAt]
    rw [dif_pos hc, dif_pos hc2]
    exact stopAt_congr n bm1 bm2 (idx + 1) (fun m hm => H m (by omega))
  · have hc2 : ¬ (idx < n ∧ get_state bm2 idx ≠ some FrameState.HoS ∧
        get_state bm2 idx ≠ some FrameState.Free) := by rw [← hs]; exact hc
    rw [stopAt]
    conv_rhs => rw [stopAt]
    rw [dif_neg hc, dif_neg hc2]
termination_by n - idx
decreasing_by obtain ⟨h1, -, -⟩ := hc; omega

theorem freeRun_get (n : Nat) (bm : Nat → Nat) (idx g : Nat) :
    get_state (freeRun n bm idx) g =
      if idx ≤ g ∧ g < stopAt n bm idx then some FrameState.Free
      else get_state bm g := by
  rw [freeRun, stopAt]
  by_cases hc : idx < n ∧ get_state bm idx ≠ some FrameState.HoS ∧
      get_state bm idx ≠ some FrameState.Free
  · rw [dif_pos hc, dif_pos hc]
    rw [freeRun_get n (set_state bm idx FrameState.Free) (idx + 1) g]
    have hcong : stopAt n (set_state bm idx FrameState.Free) (idx + 1) =
        stopAt n bm (idx + 1) := by
      apply stopAt_congr
      intro m hm
      rw [get_state_set_state, if_neg (by omega)]
    rw [hcong]
    have hge := stopAt_ge n bm (idx + 1)
    by_cases hgi : g = idx
    · subst hgi
      rw [if_neg (by omega), if_pos (by constructor <;> omega)]
      rw [get_state_set_state, if_pos rfl]
    · rw [get_state_set_state, if_neg hgi]
      by_cases hif : idx + 1 ≤ g ∧ g < stopAt n bm (idx + 1)
      · rw [if_pos hif, if_pos (by omega)]
      · rw [if_neg hif, if_neg (by omega)]
  · rw [dif_neg hc, dif_neg hc]
    rw [if_neg (by omega)]
termination_by n - idx
decreasing_by obtain ⟨h1, -, -⟩ := hc; omega

theorem release_frames_not_found (f : Nat) (pools : List ContFramePool)
    (h : ∀ q, q ∈ pools → inRange q f = false) :
    ContFramePool.release_frames pools f = pools := by
  induction pools with
  | nil => rfl
  | cons p rest ih =>
    rw [ContFramePool.release_frames]
    rw [if_neg (by rw [h p (List.mem_cons_self p rest)]; simp)]
    rw [ih (fun q hq => h q (List.mem_cons_of_mem p hq))]

theorem release_frames_skip (f : Nat) (pre : List ContFramePool)
    (tail : List ContFramePool) (h : ∀ q, q ∈ pre → inRange q f = false) :
    ContFramePool.release_frames (pre ++ tail) f =
      pre ++ ContFramePool.release_frames tail f := by
  induction pre with
  | nil => simp
  | cons q pre' ih =>
    rw [List.cons_append, ContFramePool.release_frames]
    rw [if_neg (by rw [h q (List.mem_cons_self q pre')]; simp)]
    rw [ih (fun r hr => h r (List.mem_cons_of_mem q hr)), List.cons_append]

/-- Claim C4: release_frames(f) walks the registry; on the first pool whose
range contains f it requires the state at index f - base to be HoS, then
frees that index and every following one until a Free or HoS frame or the
pool end (index m below), touching no other frame and no other pool; on a
non-HoS head, or when no pool contains f, it only emits a diagnostic and
changes no state. -/
theorem C4_release_frames (pools : List ContFramePool) (f : Nat) :
    ((∀ q, q ∈ pools → inRange q f = false) →
      ContFramePool.release_frames pools f = pools) ∧
    (∀ pre p rest, pools = pre ++ p :: rest →
      (∀ q, q ∈ pre → inRange q f = false) →
      inRange p f = true →
      (get_state p.bitmap (f - p.base_frame_no) ≠ some FrameState.HoS →
        ContFramePool.release_frames pools f = pools) ∧
      (get_state p.bitmap (f - p.base_frame_no) = some FrameState.HoS →
        ∃ m bm2,
          ContFramePool.release_frames pools f =
            pre ++ ({ p with bitmap := bm2 } :: rest) ∧
          f - p.base_frame_no < m ∧ m ≤ p.nframes ∧
          (m = p.nframes ∨ get_state p.bitmap m = some FrameState.HoS ∨
            get_state p.bitmap m = some FrameState.Free) ∧
          (∀ j, f - p.base_frame_no < j → j < m →
            get_state p.bitmap j ≠ some FrameState.HoS ∧
            get_state p.bitmap j ≠ some FrameState.Free) ∧
          (∀ g, f - p.base_frame_no ≤ g → g < m →
            get_state bm2 g = some FrameState.Free) ∧
          (∀ g, g < f - p.base_frame_no ∨ m ≤ g →
            get_state bm2 g = get_state p.bitmap g))) := by
  constructor
  · exact release_frames_not_found f pools
  · intro pre p rest hsplit hpre hin
    subst hsplit
    rw [release_frames_skip f pre (p :: rest) hpre]
    constructor
    · intro hnot
      rw [ContFramePool.release_frames, if_pos hin, if_neg hnot]
    · intro hhos
      have hrange : p.base_frame_no ≤ f ∧ f < p.base_frame_no + p.nframes := by
        simpa [inRange] using hin
      have hilt : f - p.base_frame_no < p.nframes := by omega
      have hcong : ∀ mm, f - p.base_frame_no + 1 ≤ mm →
          get_state (set_state p.bitmap (f - p.base_frame_no) FrameState.Free) mm =
            get_state p.bitmap mm := by
        intro mm hmm
        rw [get_state_set_state, if_neg (by omega)]
      have hstop :
          stopAt p.nframes (set_state p.bitmap (f - p.base_frame_no) FrameState.Free)
              (f - p.base_frame_no + 1) =
            stopAt p.nframes p.bitmap (f - p.base_frame_no + 1) :=
        stopAt_congr _ _ _ _ hcong
      have hge := stopAt_ge p.nframes p.bitmap (f - p.base_frame_no + 1)
      refine ⟨stopAt p.nframes p.bitmap (f - p.base_frame_no + 1),
        freeRun p.nframes
          (set_state p.bitmap (f - p.base_frame_no) FrameState.Free)
          (f - p.base_frame_no + 1), ?_, by omega,
        stopAt_le p.nframes p.bitmap (f - p.base_frame_no + 1) (by omega),
        stopAt_end p.nframes p.bitmap (f - p.base_frame_no + 1) (by omega),
        ?_, ?_, ?_⟩
      · rw [ContFramePool.release_frames, if_pos hin, if_pos hhos]
      · intro j hj1 hj2
        have := stopAt_scan p.nframes p.bitmap (f - p.base_frame_no + 1) j
          (by omega) hj2
        exact ⟨this.2.1, this.2.2⟩
      · intro g hg1 hg2
        rw [freeRun_get, hstop]
        by_cases hgi : g = f - p.base_frame_no
        · rw [if_neg (by omega), hgi, get_state_set_state, if_pos rfl]
        · rw [if_pos (by constructor <;> omega)]
      · intro g hg
        rw [freeRun_get, hstop, if_neg (by omega), get_state_set_state,
          if_neg (by omega)]

/-- Concrete instance of claim C4: a single pool with base 0, four frames,
frame 0 HoS and frame 1 Used (byte value 6), releasing frame 0. -/
theorem C4_release_frames_witness :
    ∃ m bm2,
      ContFramePool.release_frames [⟨0, 4, fun _ => 6⟩] 0 =
        [] ++ ({ (⟨0, 4, fun _ => 6⟩ : ContFramePool) with bitmap := bm2 } :: []) ∧
      0 < m ∧ m ≤ 4 ∧
      (m = 4 ∨ get_state (fun _ => 6) m = some FrameState.HoS ∨
        get_state (fun _ => 6) m = some FrameState.Free) ∧
      (∀ j, 0 < j → j < m →
        get_state (fun _ => 6) j ≠ some FrameState.HoS ∧
        get_state (fun _ => 6) j ≠ some FrameState.Free) ∧
      (∀ g, 0 ≤ g → g < m → get_state bm2 g = some FrameState.Free) ∧
      (∀ g, g < 0 ∨ m ≤ g → get_state bm2 g = get_state (fun _ => 6) g) :=
  ((C4_release_frames [⟨0, 4, fun _ => 6⟩] 0).2 [] ⟨0, 4, fun _ => 6⟩ [] rfl
    (by simp) (by decide)).2 (by decide)

/-- Machine::PAGE_SIZE, the page and frame size used by vm_pool.C and
page_table.C. -/
def PAGE_SIZE : Nat := 4096

/-- Pointwise update of one of the fixed 256-entry arrays of VMPool
(modelled as total functions on the index). -/
def updArr (a : Nat → Nat) (i v : Nat) : Nat → Nat :=
  fun x => if x = i then v else a x

/-- The VMPool state (vm_pool.H): pool bounds plus the free-region and
allocated-region arrays with their counts. -/
structure VMPool where
  base_address : Nat
  size : Nat
  free_base_page : Nat → Nat
  free_length : Nat → Nat
  free_count : Nat
  allocated_base_page : Nat → Nat
  allocated_length : Nat → Nat
  allocated_count : Nat

/-- VMPool::allocate (vm_pool.C, lines 67-117).  num_pages_needed is
(_size + PAGE_SIZE - 1) / PAGE_SIZE; the first free region i with
free_length[i] >= num is shrunk from the front (and removed by swapping in
the last free region if its length reaches 0), the allocated region is
appended, and allocated_base * PAGE_SIZE is returned; with no suitable
region the result is 0 and the pool is unchanged. -/
def VMPool.allocate (p : VMPool) (s : Nat) : Nat × VMPool :=
  match firstSat
      (fun i => decide ((s + PAGE_SIZE - 1) / PAGE_SIZE ≤ p.free_length i)) 0
      p.free_count with
  | none => (0, p)
  | some i =>
    let num := (s + PAGE_SIZE - 1) / PAGE_SIZE
    let ab := p.free_base_page i
    let fbp1 := updArr p.free_base_page i (p.free_base_page i + num)
    let fl1 := updArr p.free_length i (p.free_length i - num)
    let q :=
      if fl1 i = 0 then
        { p with
          free_base_page := updArr fbp1 i (fbp1 (p.free_count - 1)),
          free_length := updArr fl1 i (fl1 (p.free_count - 1)),
          free_count := p.free_count - 1 }
      else
        { p with free_base_page := fbp1, free_length := fl1 }
    (ab * PAGE_SIZE,
      { q with
        allocated_base_page := updArr q.allocated_base_page q.allocated_count ab,
        allocated_length := updArr q.allocated_length q.allocated_count num,
        allocated_count := q.allocated_count + 1 })

/-- VMPool::release (vm_pool.C, lines 121-172).  start_page is
_start_address / PAGE_SIZE; the call to is_legitimate only logs.  The
first allocated region i with that base page is appended to the free list
and removed from the allocated list by swapping in the last entry; when no
region matches the pool is unchanged. -/
def VMPool.release (p : VMPool) (addr : Nat) : VMPool :=
  match firstSat
      (fun i => decide (p.allocated_base_page i = addr / PAGE_SIZE)) 0
      p.allocated_count with
  | none => p
  | some i =>
    let p1 := { p with
      free_base_page := updArr p.free_base_page p.free_count
        (p.allocated_base_page i),
      free_length := updArr p.free_length p.free_count (p.allocated_length i),
      free_count := p.free_count + 1 }
    { p1 with
      allocated_base_page := updArr p1.allocated_base_page i
        (p1.allocated_base_page (p1.allocated_count - 1)),
      allocated_length := updArr p1.allocated_length i
        (p1.allocated_length (p1.allocated_count - 1)),
      allocated_count := p1.allocated_count - 1 }

/-- VMPool::is_legitimate (vm_pool.C, lines 174-225): the page of _address
must lie in some allocated region. -/
def VMPool.is_legitimate (p : VMPool) (addr : Nat) : Bool :=
  (List.range p.allocated_count).any fun i =>
    decide (p.allocated_base_page i ≤ addr / PAGE_SIZE ∧
      addr / PAGE_SIZE < p.allocated_base_page i + p.allocated_length i)

theorem release_found (p : VMPool) (addr : Nat) (i : Nat)
    (hfs : firstSat
        (fun j => decide (p.allocated_base_page j = addr / PAGE_SIZE)) 0
        p.allocated_count = some i) :
    VMPool.release p addr = { p with
      free_base_page := updArr p.free_base_page p.free_count
        (p.allocated_base_page i),
      free_length := updArr p.free_length p.free_count (p.allocated_length i),
      free_count := p.free_count + 1,
      allocated_base_page := updArr p.allocated_base_page i
        (p.allocated_base_page (p.allocated_count - 1)),
      allocated_length := updArr p.allocated_length i
        (p.allocated_length (p.allocated_count - 1)),
      allocated_count := p.allocated_count - 1 } := by
  unfold VMPool.release
  rw [hfs]


theorem allocate_found_fst (p : VMPool) (s i : Nat)
    (hfs : firstSat
        (fun j => decide ((s + PAGE_SIZE - 1) / PAGE_SIZE ≤ p.free_length j)) 0
        p.free_count = some i) :
    (VMPool.allocate p s).1 = p.free_base_page i * PAGE_SIZE := by
  unfold VMPool.allocate
  rw [hfs]

theorem allocate_found_count (p : VMPool) (s i : Nat)
    (hfs : firstSat
        (fun j => decide ((s + PAGE_SIZE - 1) / PAGE_SIZE ≤ p.free_length j)) 0
        p.free_count = some i) :
    (VMPool.allocate p s).2.allocated_count = p.allocated_count + 1 := by
  unfold VMPool.allocate
  rw [hfs]
  by_cases hz : p.free_length i - (s + PAGE_SIZE - 1) / PAGE_SIZE = 0
  · simp [updArr, hz]
  · simp [updArr, hz]

/-- Claim C6 fails on the code: a pool that allocated one page at page 1
(region base v = 4096) out of pages 1..9, leaving the free region (2, 8).
It holds exactly one allocated region of base 4096 and length 1 page, and
(4096 + PAGE_SIZE - 1) / PAGE_SIZE = 1, yet release(4096) followed by
allocate(4096) returns 8192, not 4096: the first-fit scan prefers the
older free region (2, 8) over the released region (1, 1). -/
theorem C6_counterexample :
    (VMPool.allocated_count ⟨4096, 36864, (fun j => if j = 0 then 2 else 0),
        (fun j => if j = 0 then 8 else 0), 1, (fun j => if j = 0 then 1 else 0),
        (fun j => if j = 0 then 1 else 0), 1⟩ = 1) ∧
    (VMPool.allocated_base_page ⟨4096, 36864, (fun j => if j = 0 then 2 else 0),
        (fun j => if j = 0 then 8 else 0), 1, (fun j => if j = 0 then 1 else 0),
        (fun j => if j = 0 then 1 else 0), 1⟩ 0 * PAGE_SIZE = 4096) ∧
    ((4096 + PAGE_SIZE - 1) / PAGE_SIZE =
      VMPool.allocated_length ⟨4096, 36864, (fun j => if j = 0 then 2 else 0),
        (fun j => if j = 0 then 8 else 0), 1, (fun j => if j = 0 then 1 else 0),
        (fun j => if j = 0 then 1 else 0), 1⟩ 0) ∧
    (VMPool.allocate
        (VMPool.release ⟨4096, 36864, (fun j => if j = 0 then 2 else 0),
          (fun j => if j = 0 then 8 else 0), 1, (fun j => if j = 0 then 1 else 0),
          (fun j => if j = 0 then 1 else 0), 1⟩ 4096) 4096).1 ≠ 4096 := by
  refine ⟨rfl, rfl, rfl, ?_⟩
  decide

/-- Claim C6 amended: with exactly one allocated region, of base address v
and length L pages, and with every current free region shorter than L,
release(v) followed by allocate(s) for any s of page count L returns v
again (without the restriction on the other free regions the first-fit
scan may return a different region first). -/
theorem C6_release_allocate_roundtrip (p : VMPool) (v s : Nat)
    (hac : p.allocated_count = 1)
    (hv : v = p.allocated_base_page 0 * PAGE_SIZE)
    (hs : (s + PAGE_SIZE - 1) / PAGE_SIZE = p.allocated_length 0)
    (hfree : ∀ i, i < p.free_count → p.free_length i < p.allocated_length 0) :
    (VMPool.allocate (VMPool.release p v) s).1 = v := by
  have hstart : v / PAGE_SIZE = p.allocated_base_page 0 := by
    rw [hv]; unfold PAGE_SIZE; omega
  have hfs1 : firstSat
      (fun j => decide (p.allocated_base_page j = v / PAGE_SIZE)) 0
      p.allocated_count = some 0 := by
    rw [hac, firstSat, if_pos (by rw [hstart]; simp)]
  rw [release_found p v 0 hfs1]
  have hfs2 : firstSat
      (fun j => decide ((s + PAGE_SIZE - 1) / PAGE_SIZE ≤
        updArr p.free_length p.free_count (p.allocated_length 0) j)) 0
      (p.free_count + 1) = some p.free_count := by
    apply firstSat_eq_some
    · rw [hs]
      simp [updArr]
    · intro m hm1 hm2
      rw [hs]
      unfold updArr
      rw [if_neg (by omega)]
      simp only [decide_eq_false_iff_not]
      have := hfree m hm2
      omega
    · omega
    · omega
  have := allocate_found_fst
    { p with
      free_base_page := updArr p.free_base_page p.free_count
        (p.allocated_base_page 0),
      free_length := updArr p.free_length p.free_count (p.allocated_length 0),
      free_count := p.free_count + 1,
      allocated_base_page := updArr p.allocated_base_page 0
        (p.allocated_base_page (p.allocated_count - 1)),
      allocated_length := updArr p.allocated_length 0
        (p.allocated_length (p.allocated_count - 1)),
      allocated_count := p.allocated_count - 1 } s p.free_count hfs2
  rw [this]
  simp [updArr, hv]

/-- Concrete instance of the amended claim C6: one allocated region of one
page at page 5 (address 20480), no free region at all; releasing and
asking for one page returns 20480 again. -/
theorem C6_release_allocate_roundtrip_witness :
    (VMPool.allocate
      (VMPool.release ⟨20480, 4096, (fun _ => 0), (fun _ => 0), 0,
        (fun j => if j = 0 then 5 else 0), (fun j => if j = 0 then 1 else 0),
        1⟩ 20480) 4096).1 = 20480 :=
  C6_release_allocate_roundtrip
    ⟨20480, 4096, (fun _ => 0), (fun _ => 0), 0,
      (fun j => if j = 0 then 5 else 0), (fun j => if j = 0 then 1 else 0), 1⟩
    20480 4096 rfl (by decide) (by decide)
    (fun i hi => absurd hi (Nat.not_lt_zero i))

/-- Claim C7 fails on the code for VMPool::allocate: the pool with a free
region of 8 pages at page 2 answers allocate(0) with 8192, not 0.  The
zero request computes num_pages_needed = 0, which the first free region
always satisfies. -/
theorem C7_counterexample :
    (VMPool.allocate ⟨4096, 36864, (fun j => if j = 0 then 2 else 0),
      (fun j => if j = 0 then 8 else 0), 1, (fun _ => 0), (fun _ => 0),
      0⟩ 0).1 ≠ 0 := by
  decide

/-- Claim C7 amended: get_frames(k) returns 0 and leaves the pool
unchanged when k = 0 or k > nframes; VMPool::allocate(0), however, is not
rejected: it returns 0 (pool unchanged) only when the pool has no free
region, and with at least one free region it returns
free_base_page[0] * PAGE_SIZE and appends a zero-length allocated
region. -/
theorem C7_invalid_request (p : ContFramePool) (k : Nat) (q : VMPool) :
    (k = 0 ∨ p.nframes < k → ContFramePool.get_frames p k = (0, p)) ∧
    (q.free_count = 0 → VMPool.allocate q 0 = (0, q)) ∧
    (0 < q.free_count →
      (VMPool.allocate q 0).1 = q.free_base_page 0 * PAGE_SIZE ∧
      (VMPool.allocate q 0).2.allocated_count = q.allocated_count + 1) := by
  refine ⟨?_, ?_, ?_⟩
  · intro h
    rw [ContFramePool.get_frames, if_pos h]
  · intro h
    unfold VMPool.allocate
    rw [h]
    rfl
  · intro h
    have hfs : firstSat
        (fun j => decide ((0 + PAGE_SIZE - 1) / PAGE_SIZE ≤ q.free_length j)) 0
        q.free_count = some 0 := by
      apply firstSat_eq_some
      · simp [PAGE_SIZE]
      · intro m hm1 hm2; omega
      · omega
      · omega
    exact ⟨allocate_found_fst q 0 0 hfs, allocate_found_count q 0 0 hfs⟩

/-- Concrete instance of the amended claim C7: an invalid two-frame
request on a one-frame pool, and allocate(0) on an empty and on a
nonempty free list. -/
theorem C7_invalid_request_witness :
    ContFramePool.get_frames ⟨0, 1, fun _ => 0⟩ 2 = (0, ⟨0, 1, fun _ => 0⟩) ∧
    VMPool.allocate ⟨0, 0, (fun _ => 0), (fun _ => 0), 0, (fun _ => 0),
      (fun _ => 0), 0⟩ 0 = (0, ⟨0, 0, (fun _ => 0), (fun _ => 0), 0,
      (fun _ => 0), (fun _ => 0), 0⟩) ∧
    ((VMPool.allocate ⟨4096, 36864, (fun j => if j = 0 then 2 else 0),
        (fun j => if j = 0 then 8 else 0), 1, (fun _ => 0), (fun _ => 0),
        0⟩ 0).1 =
      VMPool.free_base_page ⟨4096, 36864, (fun j => if j = 0 then 2 else 0),
        (fun j => if j = 0 then 8 else 0), 1, (fun _ => 0), (fun _ => 0),
        0⟩ 0 * PAGE_SIZE ∧
     (VMPool.allocate ⟨4096, 36864, (fun j => if j = 0 then 2 else 0),
        (fun j => if j = 0 then 8 else 0), 1, (fun _ => 0), (fun _ => 0),
        0⟩ 0).2.allocated_count = 0 + 1) :=
  ⟨(C7_invalid_request ⟨0, 1, fun _ => 0⟩ 2
      ⟨0, 0, (fun _ => 0), (fun _ => 0), 0, (fun _ => 0), (fun _ => 0), 0⟩).1
      (Or.inr (by decide)),
   (C7_invalid_request ⟨0, 1, fun _ => 0⟩ 2
      ⟨0, 0, (fun _ => 0), (fun _ => 0), 0, (fun _ => 0), (fun _ => 0), 0⟩).2.1
      rfl,
   (C7_invalid_request ⟨0, 1, fun _ => 0⟩ 2
      ⟨4096, 36864, (fun j => if j = 0 then 2 else 0),
        (fun j => if j = 0 then 8 else 0), 1, (fun _ => 0), (fun _ => 0),
        0⟩).2.2 (by decide)⟩

/-- PageTable::PDE_address (page_table.C, lines 213-219): the virtual
address of the page-directory entry of addr under recursive mapping. -/
def PDE_address (addr : Nat) : Nat :=
  0xFFFFF000 ||| (((addr >>> 22) &&& 0x3FF) <<< 2)

/-- PageTable::PTE_address (page_table.C, lines 221-228): the virtual
address of the page-table entry of addr under recursive mapping. -/
def PTE_address (addr : Nat) : Nat :=
  0xFFC00000 ||| (((addr >>> 22) &&& 0x3FF) <<< 12) |||
    (((addr >>> 12) &&& 0x3FF) <<< 2)

theorem testBit_1023 (n : Nat) : (1023 : Nat).testBit n = decide (n < 10) := by
  rw [show (1023 : Nat) = 2 ^ 10 - 1 by norm_num, Nat.testBit_two_pow_sub_one]

/-- Claim C8: for every 32-bit address the computed PDE and PTE virtual
addresses match the recursive-mapping formulas of the spec; for the PDE
the mask (a >> 22) & 0x3FF is redundant because a >> 22 already fits in
ten bits. -/
theorem C8_pde_pte_addresses (a : Nat) (ha : a < 2 ^ 32) :
    PDE_address a = 0xFFFFF000 ||| ((a >>> 22) <<< 2) ∧
    PTE_address a = 0xFFC00000 ||| (((a >>> 22) &&& 0x3FF) <<< 12) |||
      (((a >>> 12) &&& 0x3FF) <<< 2) := by
  refine ⟨?_, rfl⟩
  unfold PDE_address
  have h1 : a >>> 22 < 2 ^ 10 := by
    rw [Nat.shiftRight_eq_div_pow]
    have e22 : (2 : Nat) ^ 22 = 4194304 := by norm_num
    have e32 : (2 : Nat) ^ 32 = 4294967296 := by norm_num
    have e10 : (2 : Nat) ^ 10 = 1024 := by norm_num
    rw [e22, e10]
    rw [e32] at ha
    omega
  have h2 : (a >>> 22) &&& 0x3FF = a >>> 22 := by
    apply Nat.eq_of_testBit_eq
    intro i
    rw [Nat.testBit_land]
    by_cases hi : i < 10
    · rw [show (0x3FF : Nat) = 1023 from rfl, testBit_1023]
      simp [hi]
    · have hbig : a >>> 22 < 2 ^ i := by
        calc a >>> 22 < 2 ^ 10 := h1
        _ ≤ 2 ^ i := Nat.pow_le_pow_right (by norm_num) (by omega)
      rw [Nat.testBit_lt_two_pow hbig]
      simp
  rw [h2]

/-- Concrete instance of claim C8 at address 0x12345678. -/
theorem C8_pde_pte_addresses_witness :
    PDE_address 0x12345678 = 0xFFFFF000 ||| ((0x12345678 >>> 22) <<< 2) ∧
    PTE_address 0x12345678 = 0xFFC00000 |||
      (((0x12345678 >>> 22) &&& 0x3FF) <<< 12) |||
      (((0x12345678 >>> 12) &&& 0x3FF) <<< 2) :=
  C8_pde_pte_addresses 0x12345678 (by norm_num)

/-- Outcome of PageTable::handle_fault: segmentation fault, failure to get
a frame for a new page table, failure to get a frame for the page, or a
completed mapping. -/
inductive HFResult where
  | segfault : HFResult
  | noTableFrame : HFResult
  | noPageFrame : HFResult
  | handled : HFResult
deriving DecidableEq, Repr

/-- State touched by handle_fault: the memory seen through virtual
addresses (one unsigned long per address), the process frame pool, and the
VM pools registered with the current page table. -/
structure PTState where
  mem : Nat → Nat
  procPool : ContFramePool
  vm_pools : List VMPool

/-- A 32-bit store at virtual address a. -/
def writeWord (mem : Nat → Nat) (a v : Nat) : Nat → Nat :=
  fun x => if x = a then v else mem x

/-- The clearing loop of handle_fault (page_table.C, lines 151-154): 1024
entries of four bytes each, starting at the recursive-mapping address of
the new page table. -/
def zeroTable (mem : Nat → Nat) (base : Nat) : Nat → Nat :=
  (List.range 1024).foldl (fun m i => writeWord m (base + 4 * i) 0) mem

/-- The page-table-entry half of handle_fault (page_table.C, lines
159-175): if the PTE is not present, get one frame from the process pool
(return on failure) and store frame * PAGE_SIZE | 3 into the PTE. -/
def handle_fault_pte (st : PTState) (a : Nat) : HFResult × PTState :=
  if st.mem (PTE_address a) &&& 1 = 0 then
    let fr := (ContFramePool.get_frames st.procPool 1).1
    let pool1 := (ContFramePool.get_frames st.procPool 1).2
    if fr = 0 then (HFResult.noPageFrame, { st with procPool := pool1 })
    else
      (HFResult.handled,
        { st with
          mem := writeWord st.mem (PTE_address a) (fr * PAGE_SIZE ||| 3),
          procPool := pool1 })
  else (HFResult.handled, st)

/-- PageTable::handle_fault (page_table.C, lines 101-176).  The faulting
address a (read from CR2) is checked against the registered VM pools; an
address no pool claims is a segmentation fault and nothing changes.  On a
legitimate address, a non-present PDE first gets a frame from the process
pool, the PDE is set to frame * PAGE_SIZE | 3 and the new page table is
cleared through the recursive mapping; then the PTE is handled. -/
def PageTable.handle_fault (st : PTState) (a : Nat) : HFResult × PTState :=
  if st.vm_pools.any (fun q => q.is_legitimate a) then
    if st.mem (PDE_address a) &&& 1 = 0 then
      let fr := (ContFramePool.get_frames st.procPool 1).1
      let pool1 := (ContFramePool.get_frames st.procPool 1).2
      if fr = 0 then (HFResult.noTableFrame, { st with procPool := pool1 })
      else
        let mem1 := writeWord st.mem (PDE_address a) (fr * PAGE_SIZE ||| 3)
        let mem2 := zeroTable mem1 (0xFFC00000 ||| (((a >>> 22) &&& 0x3FF) <<< 12))
        handle_fault_pte { st with mem := mem2, procPool := pool1 } a
    else handle_fault_pte st a
  else (HFResult.segfault, st)

theorem or3_and1 (x : Nat) : (x ||| 3) &&& 1 = 1 := by
  have hle : (x ||| 3) &&& 1 ≤ 1 := Nat.and_le_right
  by_contra hne
  have h0 : (x ||| 3) &&& 1 = 0 := by omega
  have hbit : ((x ||| 3) &&& 1).testBit 0 = true := by
    rw [Nat.testBit_land, Nat.testBit_lor, testBit_3]
    simp
  rw [h0] at hbit
  simp [Nat.zero_testBit] at hbit

theorem handle_fault_pte_present (st : PTState) (a : Nat) (r : HFResult)
    (st' : PTState) (h : handle_fault_pte st a = (r, st'))
    (hr : r = HFResult.handled) :
    st'.mem (PTE_address a) &&& 1 = 1 := by
  unfold handle_fault_pte at h
  by_cases hpte : st.mem (PTE_address a) &&& 1 = 0
  · rw [if_pos hpte] at h
    by_cases hfr : (ContFramePool.get_frames st.procPool 1).1 = 0
    · rw [if_pos hfr] at h
      cases h
      cases hr
    · rw [if_neg hfr] at h
      obtain ⟨h1, h2⟩ := Prod.mk.injEq .. ▸ h
      rw [← h2]
      simp only [writeWord, if_pos rfl]
      exact or3_and1 _
  · rw [if_neg hpte] at h
    obtain ⟨h1, h2⟩ := Prod.mk.injEq .. ▸ h
    rw [← h2]
    have hle : st.mem (PTE_address a) &&& 1 ≤ 1 := Nat.and_le_right
    omega

/-- Claim C2: on a faulting address some registered VM pool deems
legitimate, whenever handle_fault completes (the process pool supplied the
page-table frame and the page frame where they were needed), the PTE of
the address has its Present bit set, so the same fault is not triggered
again. -/
theorem C2_handle_fault_maps_pte (st : PTState) (a : Nat) (r : HFResult)
    (st' : PTState)
    (hlegit : st.vm_pools.any (fun q => q.is_legitimate a) = true)
    (h : PageTable.handle_fault st a = (r, st'))
    (hr : r = HFResult.handled) :
    st'.mem (PTE_address a) &&& 1 = 1 := by
  unfold PageTable.handle_fault at h
  rw [hlegit] at h
  simp only [if_true] at h
  by_cases hpde : st.mem (PDE_address a) &&& 1 = 0
  · rw [if_pos hpde] at h
    by_cases hfr : (ContFramePool.get_frames st.procPool 1).1 = 0
    · rw [if_pos hfr] at h
      cases h
      cases hr
    · rw [if_neg hfr] at h
      exact handle_fault_pte_present _ _ _ _ h hr
  · rw [if_neg hpde] at h
    exact handle_fault_pte_present _ _ _ _ h hr

/-- Concrete instance of claim C2: one VM pool with the single page 1
allocated, faulting address 4096, PDE and PTE already present (all memory
words 1). -/
theorem C2_handle_fault_maps_pte_witness :
    (PageTable.handle_fault
      ⟨fun _ => 1, ⟨1, 4, fun _ => 0⟩,
        [⟨0, 0, (fun _ => 0), (fun _ => 0), 0, (fun j => if j = 0 then 1 else 0),
          (fun j => if j = 0 then 1 else 0), 1⟩]⟩ 4096).2.mem
      (PTE_address 4096) &&& 1 = 1 :=
  C2_handle_fault_maps_pte
    ⟨fun _ => 1, ⟨1, 4, fun _ => 0⟩,
      [⟨0, 0, (fun _ => 0), (fun _ => 0), 0, (fun j => if j = 0 then 1 else 0),
        (fun j => if j = 0 then 1 else 0), 1⟩]⟩ 4096 HFResult.handled
    (PageTable.handle_fault
      ⟨fun _ => 1, ⟨1, 4, fun _ => 0⟩,
        [⟨0, 0, (fun _ => 0), (fun _ => 0), 0, (fun j => if j = 0 then 1 else 0),
          (fun j => if j = 0 then 1 else 0), 1⟩]⟩ 4096).2
    (by decide) rfl rfl

/-- Claim C3: on a faulting address no registered VM pool claims,
handle_fault reports a segmentation fault and returns the state unchanged:
no frame pool and no memory word (PDE or PTE) is touched. -/
theorem C3_handle_fault_segfault (st : PTState) (a : Nat)
    (h : st.vm_pools.any (fun q => q.is_legitimate a) = false) :
    PageTable.handle_fault st a = (HFResult.segfault, st) := by
  unfold PageTable.handle_fault
  rw [h]
  simp

/-- Concrete instance of claim C3: no registered VM pool at all. -/
theorem C3_handle_fault_segfault_witness :
    PageTable.handle_fault ⟨fun _ => 0, ⟨0, 4, fun _ => 0⟩, []⟩ 12345 =
      (HFResult.segfault, ⟨fun _ => 0, ⟨0, 4, fun _ => 0⟩, []⟩) :=
  C3_handle_fault_segfault ⟨fun _ => 0, ⟨0, 4, fun _ => 0⟩, []⟩ 12345 rfl

/-- A registry node (struct FramePoolNode): the owning pool (identified by
a numeric id standing for the ContFramePool pointer) and the prev/next
links, as slot indices into the node arena. -/
structure FramePoolNode where
  pool : Nat
  prev : Option Nat
  next : Option Nat
deriving DecidableEq, Repr

/-- The registry state: the framePoolNodes arena (a function from slot
index to node), next_free_node, and the global head and tail pointers of
cont_frame_pool.C. -/
structure Registry where
  nodes : Nat → FramePoolNode
  next_free_node : Nat
  head : Option Nat
  tail : Option Nat

/-- Pointwise update of the node arena. -/
def updNode (ns : Nat → FramePoolNode) (i : Nat) (v : FramePoolNode) :
    Nat → FramePoolNode :=
  fun x => if x = i then v else ns x

/-- The registry before any pool is constructed. -/
def emptyRegistry : Registry := ⟨fun _ => ⟨0, none, none⟩, 0, none, none⟩

/-- add_frame_pool (cont_frame_pool.C, lines 249-268): refuse when the
arena is full, otherwise fill slot next_free_node with the new node
(prev = null, next = old head), set the prev link of the old head node if
there is one (else set tail), and make the new slot the head. -/
def add_frame_pool (maxPools : Nat) (r : Registry) (pid : Nat) : Registry :=
  if maxPools ≤ r.next_free_node then r
  else
    let idx := r.next_free_node
    let ns1 := updNode r.nodes idx ⟨pid, none, r.head⟩
    match r.head with
    | some h =>
      let oldHead := ns1 h
      let ns2 := updNode ns1 h ({ oldHead with prev := some idx })
      { r with nodes := ns2, head := some idx, next_free_node := idx + 1 }
    | none =>
      { r with
        nodes := ns1
        head := some idx
        tail := some idx
        next_free_node := idx + 1 }

/-- The traversal loop of remove_frame_pool (cont_frame_pool.C, lines
270-297), with fuel bounding the number of visited nodes (the C while loop
has no bound).  On a match: unlink via the prev side (or move head), then
via the next side — where the source assigns head, not tail —, then
decrement next_free_node and copy the node of the now-last slot into the
freed slot. -/
def removeAux (pid : Nat) : Nat → Option Nat → Registry → Registry
  | _, none, r => r
  | 0, some _, r => r
  | fuel + 1, some c, r =>
    let n := r.nodes c
    if n.pool = pid then
      let r1 :=
        match n.prev with
        | some pv =>
          let pvNode := r.nodes pv
          { r with nodes := updNode r.nodes pv ({ pvNode with next := n.next }) }
        | none => { r with head := n.next }
      let n1 := r1.nodes c
      let r2 :=
        match n1.next with
        | some nx =>
          let nxNode := r1.nodes nx
          { r1 with nodes := updNode r1.nodes nx ({ nxNode with prev := n1.prev }) }
        | none => { r1 with head := n1.prev }
      { r2 with
        next_free_node := r2.next_free_node - 1
        nodes := updNode r2.nodes c (r2.nodes (r2.next_free_node - 1)) }
    else removeAux pid fuel (r.nodes c).next r

/-- remove_frame_pool: walk from the global head. -/
def remove_frame_pool (fuel : Nat) (r : Registry) (pid : Nat) : Registry :=
  removeAux pid fuel r.head r

/-- The pool ids reachable by following next links from a slot, up to
fuel steps: what any walk of the registry list (such as the dispatch in
release_frames) sees. -/
def regListFrom (r : Registry) : Nat → Option Nat → List Nat
  | 0, _ => []
  | _ + 1, none => []
  | fuel + 1, some c => (r.nodes c).pool :: regListFrom r fuel (r.nodes c).next

/-- The pool ids on the registry list starting at the global head. -/
def regPools (r : Registry) (fuel : Nat) : List Nat :=
  regListFrom r fuel r.head

/-- Claim C9 shows a bug: construct pools 1 and 2, destroy pool 1,
construct pool 3 (capacity MAX_FRAME_POOLS = 4).  The slot compaction of
remove_frame_pool leaves the head pointing into the freed slot, so the
next construction makes the list a self-loop on the node of pool 3: every
walk of the registry sees only pool 3, repeated, and never the live pool
2 — the registry does not contain every live pool exactly once. -/
theorem C9_registry_corruption (fuel : Nat) :
    regPools
      (add_frame_pool 4
        (remove_frame_pool 8
          (add_frame_pool 4 (add_frame_pool 4 emptyRegistry 1) 2) 1) 3)
      fuel = List.replicate fuel 3 ∧
    2 ∉ regPools
      (add_frame_pool 4
        (remove_frame_pool 8
          (add_frame_pool 4 (add_frame_pool 4 emptyRegistry 1) 2) 1) 3)
      fuel := by
  have hhead :
      (add_frame_pool 4
        (remove_frame_pool 8
          (add_frame_pool 4 (add_frame_pool 4 emptyRegistry 1) 2) 1)
        3).head = some 1 := by decide
  have hnode :
      (add_frame_pool 4
        (remove_frame_pool 8
          (add_frame_pool 4 (add_frame_pool 4 emptyRegistry 1) 2) 1)
        3).nodes 1 = ⟨3, some 1, some 1⟩ := by decide
  have key : ∀ n, regListFrom
      (add_frame_pool 4
        (remove_frame_pool 8
          (add_frame_pool 4 (add_frame_pool 4 emptyRegistry 1) 2) 1) 3)
      n (some 1) = List.replicate n 3 := by
    intro n
    induction n with
    | zero => rfl
    | succ n ih =>
      rw [regListFrom, hnode, ih]
      rfl
  constructor
  · rw [regPools, hhead, key]
  · rw [regPools, hhead, key]
    intro hmem
    have := List.eq_of_mem_replicate hmem
    omega
